import Mathlib

/-!
Verification of the Light Git editor extension (`src/extension.ts`) against its
natural-language specification.

The extension's string processing is embedded shallowly: JavaScript strings are
Lean `String`s, and the JavaScript string operations the code uses
(`trim`, `startsWith`, one-occurrence `replace`, `includes`, `split`, `join`)
are modelled as structurally recursive functions on the underlying `List Char`,
so that every definition is executable and kernel-reducible.  The stateful
command handlers are modelled as pure functions from their inputs (file path,
workspace folder, tool outputs, interactive-prompt outcome, diff-view outcome)
to the ordered list of observable effects they perform, which embeds the
sequential `await` control flow of the handlers.
-/

namespace LightGit

/-- JavaScript `String.prototype.trim`: remove leading and trailing whitespace
characters, modelled on the character list. -/
def trimList (s : List Char) : List Char :=
  ((s.dropWhile Char.isWhitespace).reverse.dropWhile Char.isWhitespace).reverse

/-- JavaScript `s.trim()`. -/
def jsTrim (s : String) : String :=
  ⟨trimList s.data⟩

/-- Replace the first occurrence of the (non-empty) pattern `pat` by `rep`;
the list is returned unchanged when `pat` does not occur. -/
def replaceFirstList (pat rep : List Char) : List Char → List Char
  | [] => []
  | c :: cs =>
    if pat.isPrefixOf (c :: cs) then rep ++ (c :: cs).drop pat.length
    else c :: replaceFirstList pat rep cs

/-- JavaScript `s.replace(pat, rep)` with a plain-string pattern: only the
first occurrence is replaced; an empty pattern matches at the start. -/
def jsReplaceFirst (s pat rep : String) : String :=
  if pat.data.isEmpty then ⟨rep.data ++ s.data⟩
  else ⟨replaceFirstList pat.data rep.data s.data⟩

/-- JavaScript `s.startsWith(pre)`. -/
def jsStartsWith (s pre : String) : Bool :=
  pre.data.isPrefixOf s.data

/-- JavaScript `s.endsWith(suf)`. -/
def jsEndsWith (s suf : String) : Bool :=
  suf.data.isSuffixOf s.data

/-- Substring occurrence on character lists. -/
def containsList (sub : List Char) : List Char → Bool
  | [] => sub.isEmpty
  | c :: cs => sub.isPrefixOf (c :: cs) || containsList sub cs

/-- JavaScript `s.includes(sub)`. -/
def jsIncludes (s sub : String) : Bool :=
  containsList sub.data s.data

/-- JavaScript `s.split(sep)` for a single-character separator, on character
lists: always returns at least one (possibly empty) piece. -/
def splitOnChar (sep : Char) : List Char → List (List Char)
  | [] => [[]]
  | c :: cs =>
    if c = sep then [] :: splitOnChar sep cs
    else
      match splitOnChar sep cs with
      | [] => [[c]]
      | p :: ps => (c :: p) :: ps

/-- JavaScript `parts.join(sep)` for a single-character separator. -/
def joinWith (sep : Char) : List (List Char) → List Char
  | [] => []
  | [p] => p
  | p :: ps => p ++ sep :: joinWith sep ps

/-!
## URL normalization and remote file URL construction (`openRemote` handler)

`normalize` embeds extension.ts lines 209-217:
```
let webUrl = remoteUrl.trim();
if (webUrl.startsWith('git@')) {
    webUrl = webUrl.replace('git@', 'https://').replace(':', '/');
}
webUrl = webUrl.replace(/\.git$/, '');
```
The regex replacement with the empty string strips a trailing `.git` when
present.
-/

/-- Remote URL clean-up performed by the `openRemote` handler. -/
def normalize (remoteUrl : String) : String :=
  let w := jsTrim remoteUrl
  let w := if jsStartsWith w "git@"
           then jsReplaceFirst (jsReplaceFirst w "git@" "https://") ":" "/"
           else w
  if jsEndsWith w ".git" then ⟨w.data.take (w.data.length - 4)⟩ else w

/-- Host-specific web file URL construction, embedding extension.ts lines
219-245: the path template is chosen by an `includes` chain over the
normalized base URL (github, then gitlab, then bitbucket, then a generic
fallback), and a line fragment is appended by a second `includes` chain only
when a line number is present; the fallback branch appends no fragment.
`lineNumber` is the already 1-indexed display line (`editor line + 1`). -/
def buildFileUrl (webUrl currentBranch relativePath : String) (lineNumber : Option Nat) : String :=
  let fileUrl : String :=
    if jsIncludes webUrl "github.com" then
      webUrl ++ "/blob/" ++ currentBranch ++ "/" ++ relativePath
    else if jsIncludes webUrl "gitlab.com" then
      webUrl ++ "/-/blob/" ++ currentBranch ++ "/" ++ relativePath
    else if jsIncludes webUrl "bitbucket.org" then
      webUrl ++ "/src/" ++ currentBranch ++ "/" ++ relativePath
    else
      webUrl ++ "/blob/" ++ currentBranch ++ "/" ++ relativePath
  match lineNumber with
  | none => fileUrl
  | some n =>
    if jsIncludes webUrl "github.com" then fileUrl ++ "#L" ++ toString n
    else if jsIncludes webUrl "gitlab.com" then fileUrl ++ "#L" ++ toString n
    else if jsIncludes webUrl "bitbucket.org" then fileUrl ++ "#lines-" ++ toString n
    else fileUrl

/-- Append an optional fragment to a URL. -/
def lineFrag (url : String) (frag : Option String) : String :=
  match frag with
  | none => url
  | some f => url ++ f

/-- Reference definition of the host table, written from the specification's
table in section 4.4: each row gives the full URL (path template plus optional
fragment) for its host signature, rows tried in table order, the unmatched
fallback never taking a fragment. -/
def buildFileUrlSpec (base branch path : String) (line : Option Nat) : String :=
  if jsIncludes base "github.com" then
    lineFrag (base ++ "/blob/" ++ branch ++ "/" ++ path)
      (line.map (fun n => "#L" ++ toString n))
  else if jsIncludes base "gitlab.com" then
    lineFrag (base ++ "/-/blob/" ++ branch ++ "/" ++ path)
      (line.map (fun n => "#L" ++ toString n))
  else if jsIncludes base "bitbucket.org" then
    lineFrag (base ++ "/src/" ++ branch ++ "/" ++ path)
      (line.map (fun n => "#lines-" ++ toString n))
  else
    base ++ "/blob/" ++ branch ++ "/" ++ path

/-- End-to-end URL computed by the `openRemote` handler on the success path:
the raw remote URL is normalized, the branch output trimmed, and the cursor
line (0-indexed, present only when the active editor shows the same file) is
converted to a 1-indexed display line. -/
def openRemoteUrl (remoteUrl branchOutput relativePath : String) (cursorLine : Option Nat) : String :=
  buildFileUrl (normalize remoteUrl) (jsTrim branchOutput) relativePath
    (cursorLine.map (fun n => n + 1))

/-!
## Branch-output parsing and revision selection (`compareWithRevision` handler)
-/

/-- A selectable revision parsed from one line of branch-listing output:
`identifier` is the quick-pick label and resolved hash, `description` the
free-text remainder of the line (extension.ts lines 34-41). -/
structure RevisionCandidate where
  identifier : List Char
  description : List Char
  deriving DecidableEq

/-- The non-discarded lines of the branch-listing output, embedding
`logOutput.trim().split('\n').filter(line => line.trim())`
(extension.ts line 27). -/
def parsedCommitLines (logOutput : List Char) : List (List Char) :=
  (splitOnChar '\n' (trimList logOutput)).filter (fun l => !(trimList l).isEmpty)

/-- Parse one line, embedding
`const [hash, ...messageParts] = commit.split(' ')` with
`description = messageParts.join(' ')` (extension.ts lines 35-38).
`splitOnChar` never returns `[]`, so the first arm is unreachable. -/
def parseLine (l : List Char) : RevisionCandidate :=
  match splitOnChar ' ' l with
  | [] => ⟨l, []⟩
  | h :: t => ⟨h, joinWith ' ' t⟩

/-- The candidate list built from the branch-listing output
(extension.ts lines 27-41). -/
def listCandidates (logOutput : List Char) : List RevisionCandidate :=
  (parsedCommitLines logOutput).map parseLine

/-- Line parse written from the claim's words: split on the first whitespace
character, the identifier being the text before it and the description the
remaining text of the line. -/
def parseLineClaimSpec (l : List Char) : RevisionCandidate :=
  ⟨l.takeWhile (fun c => !c.isWhitespace), (l.dropWhile (fun c => !c.isWhitespace)).drop 1⟩

/-- Candidate-list parse written from the claim's words: every non-empty
output line is parsed by splitting on the first whitespace. -/
def listCandidatesClaimSpec (logOutput : List Char) : List RevisionCandidate :=
  ((splitOnChar '\n' (trimList logOutput)).filter (fun l => !l.isEmpty)).map parseLineClaimSpec

/-- Line parse of the amended claim: split on the first space character
(U+0020), the identifier being the text before the first space and the
description the remainder of the line after that space. -/
def parseLineAmendedSpec (l : List Char) : RevisionCandidate :=
  ⟨l.takeWhile (fun c => c != ' '), (l.dropWhile (fun c => c != ' ')).drop 1⟩

/-- Candidate-list parse of the amended claim: every output line with
non-whitespace content is parsed by splitting on the first space character. -/
def listCandidatesAmendedSpec (logOutput : List Char) : List RevisionCandidate :=
  ((splitOnChar '\n' (trimList logOutput)).filter (fun l => !(trimList l).isEmpty)).map
    parseLineAmendedSpec

/-- Resolution of an accepted quick-pick prompt (extension.ts lines 49-62):
a highlighted list row resolves to the matching item's identifier, otherwise
non-empty typed text resolves to itself, otherwise to no selection. -/
def resolveAccept (items : List RevisionCandidate) (selected : Option RevisionCandidate)
    (value : List Char) : Option (List Char) :=
  match selected with
  | some s => (items.find? (fun it => it.identifier == s.identifier)).map
      (fun it => it.identifier)
  | none => if value.isEmpty then none else some value

/-!
## Effect traces of the command handlers
-/

/-- Observable effects of the `compareWithRevision` handler, in program
order. -/
inductive CWREv where
  | execBranchList
  | showError (msg : String)
  | showInfo (msg : String)
  | showPrompt
  | registerProvider
  | openDiff
  | scheduleDispose (ms : Nat)
  deriving DecidableEq

/-- Whether an effect is an error notification. -/
def isErrorEvent : CWREv → Bool
  | CWREv.showError _ => true
  | _ => false

/-- Effect trace of one `compareWithRevision` invocation (extension.ts lines
9-114), as a function of the resolved file path and workspace folder (absent
values take the early-error paths), the branch-listing output, the prompt
outcome (`none` when the prompt was dismissed or accepted empty), and whether
the diff-view open succeeded.  The `finally` block schedules the provider
disposal 10000 ms later whether or not the diff-view open throws. -/
def compareWithRevisionTrace (filePath workspaceFolder : Option String) (logOutput : String)
    (selection : Option (List Char)) (diffOk : Bool) : List CWREv :=
  match filePath with
  | none => [CWREv.showError "No file selected"]
  | some _ =>
    match workspaceFolder with
    | none => [CWREv.showError "File is not in a workspace"]
    | some _ =>
      if (parsedCommitLines logOutput.data).length = 0 then
        [CWREv.execBranchList, CWREv.showInfo "No commits found for this file"]
      else
        CWREv.execBranchList :: CWREv.showPrompt ::
          (match selection with
           | none => []
           | some _ =>
             CWREv.registerProvider :: CWREv.openDiff :: CWREv.scheduleDispose 10000 ::
               (if diffOk then [] else [CWREv.showError "Error"]))

/-- Observable effects of the `compareWithHash` handler, in program order. -/
inductive CWHEv where
  | readClipboard
  | execGit (cmd : String)
  | showError (msg : String)
  | registerProvider
  | openDiff
  | scheduleDispose (ms : Nat)
  deriving DecidableEq

/-- The locator fed to the diff view: the `git-show` URI built from the
file's workspace-relative path and the revision identifier
(extension.ts lines 78-82 and 143-147). -/
structure ContentLocator where
  relativePath : String
  revision : String
  deriving DecidableEq

/-- Effect trace and produced content locator of one `compareWithHash`
invocation (extension.ts lines 116-179).  `relativePath` stands for the value
of `path.relative(workspaceRoot, filePath)` computed by the external path
library.  The handler itself never invokes git: the trimmed clipboard text is
used verbatim as the locator's revision, and an empty trimmed clipboard
reports one error and stops before any registration. -/
def compareWithHashRun (filePath workspaceFolder : Option String)
    (relativePath clipboard : String) (diffOk : Bool) : List CWHEv × Option ContentLocator :=
  match filePath with
  | none => ([CWHEv.showError "No file selected"], none)
  | some _ =>
    match workspaceFolder with
    | none => ([CWHEv.showError "File is not in a workspace"], none)
    | some _ =>
      let hash := jsTrim clipboard
      if hash.data.isEmpty then
        ([CWHEv.readClipboard, CWHEv.showError "Clipboard is empty"], none)
      else
        (CWHEv.readClipboard :: CWHEv.registerProvider :: CWHEv.openDiff ::
           CWHEv.scheduleDispose 10000 :: (if diffOk then [] else [CWHEv.showError "Error"]),
         some ⟨relativePath, hash⟩)

/-- The `git show` command line built by the content providers
(extension.ts lines 90 and 155). -/
def gitShowCmd (commitHash filePath : String) : String :=
  "git show " ++ commitHash ++ ":\"" ++ filePath ++ "\""

/-- Content-provider dereference (extension.ts lines 86-97): the external
tool is a function from a command line to either its stdout or an error; a
tool error is caught and rendered as a placeholder string, so the result is a
total `String`, never a thrown failure. -/
def provideTextDocumentContent (tool : String → Except String String)
    (commitHash filePath : String) : String :=
  match tool (gitShowCmd commitHash filePath) with
  | Except.ok content => content
  | Except.error e => "Error loading content: " ++ toString e

/-- A tool that fails on every command, used to exercise the error path of
the content provider on a concrete input. -/
def failingTool : String → Except String String :=
  fun _ => Except.error "fatal: bad object"

/-!
## Issuance order of the two reads in the `openRemote` handler
-/

/-- The two read-only git queries of the `openRemote` handler. -/
inductive ORCmd where
  | configRemoteOriginUrl
  | branchShowCurrent
  deriving DecidableEq

/-- Issuance/completion events of the `openRemote` handler's success path. -/
inductive OREv where
  | execStart (c : ORCmd)
  | execEnd (c : ORCmd)
  | openExternal (url : String)
  deriving DecidableEq

/-- Event trace of the `openRemote` success path (extension.ts lines
194-248): each `await execAsync(...)` statement issues its command and runs
to completion before the next statement executes. -/
def openRemoteTrace (remoteUrl branchOutput relativePath : String)
    (cursorLine : Option Nat) : List OREv :=
  [OREv.execStart ORCmd.configRemoteOriginUrl,
   OREv.execEnd ORCmd.configRemoteOriginUrl,
   OREv.execStart ORCmd.branchShowCurrent,
   OREv.execEnd ORCmd.branchShowCurrent,
   OREv.openExternal (openRemoteUrl remoteUrl branchOutput relativePath cursorLine)]

/-- Concurrent issuance of the two reads: the branch read starts before the
remote-URL read completes. -/
def issuedConcurrently (t : List OREv) : Bool :=
  match t.findIdx? (fun e => e == OREv.execStart ORCmd.branchShowCurrent),
        t.findIdx? (fun e => e == OREv.execEnd ORCmd.configRemoteOriginUrl) with
  | some i, some j => decide (i < j)
  | _, _ => false

/-- Sequential issuance of the two reads: the remote-URL read completes
before the branch read starts. -/
def issuedSequentially (t : List OREv) : Bool :=
  match t.findIdx? (fun e => e == OREv.execEnd ORCmd.configRemoteOriginUrl),
        t.findIdx? (fun e => e == OREv.execStart ORCmd.branchShowCurrent) with
  | some i, some j => decide (i < j)
  | _, _ => false

/-!
## Helper lemmas about split and join
-/

theorem joinWith_cons_cons (sep : Char) (p q : List Char) (qs : List (List Char)) :
    joinWith sep (p :: q :: qs) = p ++ sep :: joinWith sep (q :: qs) := rfl

theorem splitOnChar_ne_nil (sep : Char) (cs : List Char) : splitOnChar sep cs ≠ [] := by
  induction cs with
  | nil => simp [splitOnChar]
  | cons c cs ih =>
    simp only [splitOnChar]
    split
    · simp
    · cases h : splitOnChar sep cs with
      | nil => simp
      | cons p ps => simp [h]

theorem joinWith_splitOnChar (sep : Char) (cs : List Char) :
    joinWith sep (splitOnChar sep cs) = cs := by
  induction cs with
  | nil => rfl
  | cons c cs ih =>
    simp only [splitOnChar]
    by_cases hc : c = sep
    · rw [if_pos hc]
      cases h : splitOnChar sep cs with
      | nil => exact absurd h (splitOnChar_ne_nil sep cs)
      | cons p ps =>
        rw [h] at ih
        show joinWith sep ([] :: p :: ps) = c :: cs
        rw [joinWith_cons_cons, List.nil_append, ih, hc]
    · rw [if_neg hc]
      cases h : splitOnChar sep cs with
      | nil => exact absurd h (splitOnChar_ne_nil sep cs)
      | cons p ps =>
        rw [h] at ih
        cases ps with
        | nil =>
          show (c :: p) = c :: cs
          rw [← ih]
          rfl
        | cons q qs =>
          show (c :: p) ++ sep :: joinWith sep (q :: qs) = c :: cs
          rw [← ih]
          rfl

theorem splitOnChar_head (sep : Char) (cs : List Char) :
    (splitOnChar sep cs).headD [] = cs.takeWhile (fun c => c != sep) := by
  induction cs with
  | nil => rfl
  | cons c cs ih =>
    simp only [splitOnChar]
    by_cases hc : c = sep
    · rw [if_pos hc]
      simp [List.takeWhile, hc]
    · rw [if_neg hc]
      cases h : splitOnChar sep cs with
      | nil => exact absurd h (splitOnChar_ne_nil sep cs)
      | cons p ps =>
        have hb : (c != sep) = true := by simp [bne, hc]
        rw [h] at ih
        simp only [List.headD] at ih
        simp [List.takeWhile_cons, hb, ← ih]

theorem joinWith_splitOnChar_tail (sep : Char) (cs : List Char) :
    joinWith sep (splitOnChar sep cs).tail = (cs.dropWhile (fun c => c != sep)).drop 1 := by
  induction cs with
  | nil => rfl
  | cons c cs ih =>
    simp only [splitOnChar]
    by_cases hc : c = sep
    · rw [if_pos hc]
      simp only [List.tail_cons]
      rw [joinWith_splitOnChar]
      simp [List.dropWhile, bne, hc]
    · rw [if_neg hc]
      cases h : splitOnChar sep cs with
      | nil => exact absurd h (splitOnChar_ne_nil sep cs)
      | cons p ps =>
        have hb : (c != sep) = true := by simp [bne, hc]
        rw [h] at ih
        simp only [List.tail_cons] at ih
        simp [List.dropWhile_cons, hb, ih]

theorem parseLine_eq_amended (l : List Char) : parseLine l = parseLineAmendedSpec l := by
  have h1 := splitOnChar_head ' ' l
  have h2 := joinWith_splitOnChar_tail ' ' l
  unfold parseLine parseLineAmendedSpec
  cases h : splitOnChar ' ' l with
  | nil => exact absurd h (splitOnChar_ne_nil ' ' l)
  | cons p ps =>
    rw [h] at h1 h2
    simp only [List.headD] at h1
    simp only [List.tail_cons] at h2
    rw [← h1, ← h2]

/-!
## Claim theorems
-/

/-- C1: the spec claims `normalize` rewrites `git@host:path` to
`https://host/path`.  In the code, `replace('git@', 'https://')` runs first,
so the subsequent `replace(':', '/')` hits the colon of `https:` rather than
the host-path separator: the result keeps the `host:path` colon and mangles
the scheme to `https///`.  At the spec's own example input the code yields
`https///github.com:acme/widgets` instead of the documented
`https://github.com/acme/widgets`. -/
theorem c1_normalize_colon_slip :
    normalize "git@github.com:acme/widgets.git" = "https///github.com:acme/widgets" ∧
    normalize "git@github.com:acme/widgets.git" ≠ "https://github.com/acme/widgets" := by
  decide

/-- C2: `buildFileUrl` agrees with the specification's host table on every
base URL, branch, path and optional line number: github / gitlab / bitbucket
rows in table order with their fragments, generic fallback with no fragment,
and no fragment for any host when no line number is present. -/
theorem c2_buildFileUrl_matches_host_table (base branch path : String) (line : Option Nat) :
    buildFileUrl base branch path line = buildFileUrlSpec base branch path line := by
  cases line with
  | none => rfl
  | some n =>
    simp only [buildFileUrl, buildFileUrlSpec, lineFrag, Option.map_some']
    split_ifs <;> simp [String.append_assoc]

/-- C3: the spec's end-to-end example (origin `git@github.com:acme/widgets.git`,
branch `develop`, file `lib/util.ts`, cursor on 0-indexed line 9) should open
`https://github.com/acme/widgets/blob/develop/lib/util.ts#L10`; because of the
normalization slip shown in C1 the code instead opens
`https///github.com:acme/widgets/blob/develop/lib/util.ts#L10` (the 0- to
1-indexed line conversion itself is correct). -/
theorem c3_end_to_end_example :
    openRemoteUrl "git@github.com:acme/widgets.git" "develop" "lib/util.ts" (some 9) =
      "https///github.com:acme/widgets/blob/develop/lib/util.ts#L10" ∧
    openRemoteUrl "git@github.com:acme/widgets.git" "develop" "lib/util.ts" (some 9) ≠
      "https://github.com/acme/widgets/blob/develop/lib/util.ts#L10" := by
  decide

/-- C4: accepting the prompt with non-empty typed text and no highlighted
list row resolves to exactly the typed text, whatever the candidate list. -/
theorem c4_typed_text_verbatim (items : List RevisionCandidate) (value : List Char)
    (h : value.isEmpty = false) :
    resolveAccept items none value = some value := by
  simp [resolveAccept, h]

theorem c4_typed_text_verbatim_witness :
    ("deadbeef".data.isEmpty = false) ∧
      resolveAccept [⟨"main".data, []⟩, ⟨"dev".data, []⟩] none "deadbeef".data =
        some "deadbeef".data :=
  ⟨by decide, c4_typed_text_verbatim [⟨"main".data, []⟩, ⟨"dev".data, []⟩] "deadbeef".data
    (by decide)⟩

/-- C5: when the selection prompt resolves to no selection (dismissal or
empty accept), the `compareWithRevision` handler short-circuits: its trace
ends at the prompt, registers no content provider, opens no diff, and raises
no error. -/
theorem c5_dismissal_short_circuits (fp ws logOutput : String) (d : Bool)
    (h : parsedCommitLines logOutput.data ≠ []) :
    compareWithRevisionTrace (some fp) (some ws) logOutput none d =
      [CWREv.execBranchList, CWREv.showPrompt] ∧
    CWREv.registerProvider ∉ compareWithRevisionTrace (some fp) (some ws) logOutput none d ∧
    CWREv.openDiff ∉ compareWithRevisionTrace (some fp) (some ws) logOutput none d ∧
    (compareWithRevisionTrace (some fp) (some ws) logOutput none d).filter isErrorEvent = [] := by
  have he : ¬(parsedCommitLines logOutput.data).length = 0 := by
    simpa [List.length_eq_zero] using h
  refine ⟨?_, ?_, ?_, ?_⟩ <;> simp [compareWithRevisionTrace, he, isErrorEvent, List.filter]

theorem c5_dismissal_short_circuits_witness :
    (parsedCommitLines "main\ndevelop".data ≠ []) ∧
    (compareWithRevisionTrace (some "lib/util.ts") (some "/w") "main\ndevelop" none true =
      [CWREv.execBranchList, CWREv.showPrompt] ∧
    CWREv.registerProvider ∉
      compareWithRevisionTrace (some "lib/util.ts") (some "/w") "main\ndevelop" none true ∧
    CWREv.openDiff ∉
      compareWithRevisionTrace (some "lib/util.ts") (some "/w") "main\ndevelop" none true ∧
    (compareWithRevisionTrace (some "lib/util.ts") (some "/w") "main\ndevelop" none
        true).filter isErrorEvent = []) :=
  ⟨by decide, c5_dismissal_short_circuits "lib/util.ts" "/w" "main\ndevelop" true (by decide)⟩

/-- C6 counterexample: at the spec's own example inputs the two reads of the
`openRemote` handler are not issued concurrently — the branch read starts
only after the remote-URL read has completed, because the handler awaits the
first `execAsync` before issuing the second. -/
theorem c6_not_concurrent :
    issuedConcurrently
      (openRemoteTrace "git@github.com:acme/widgets.git" "develop" "lib/util.ts" (some 9)) =
      false := by
  decide

/-- C6 amended: the two external reads are issued sequentially — the
remote-origin-URL read completes before the current-branch read is issued,
for every input. -/
theorem c6_sequential_reads (remoteUrl branchOutput relativePath : String)
    (cursorLine : Option Nat) :
    issuedSequentially (openRemoteTrace remoteUrl branchOutput relativePath cursorLine) =
      true := by
  rfl

/-- C7 counterexample: the claim parses every non-empty line by splitting on
the first whitespace character; the code instead skips whitespace-only lines
and splits on the first space only.  The output `"ab\tcd\n   \nx y"` (a line
with a tab, a whitespace-only line, a line with a space) separates the two
readings. -/
theorem c7_counterexample :
    listCandidates "ab\tcd\n   \nx y".data ≠ listCandidatesClaimSpec "ab\tcd\n   \nx y".data := by
  decide

/-- C7 amended: `listCandidates` parses every output line with non-whitespace
content (empty or whitespace-only lines are skipped) by splitting on the
first space character: the identifier is the text before the first space and
the description is the remainder of the line after it. -/
theorem c7_split_on_first_space (logOutput : List Char) :
    listCandidates logOutput = listCandidatesAmendedSpec logOutput := by
  unfold listCandidates listCandidatesAmendedSpec parsedCommitLines
  rw [show parseLine = parseLineAmendedSpec from funext parseLine_eq_amended]

/-- C8: for every tool, revision and relative path, when the tool call fails
the content-provider dereference returns the human-readable placeholder
`Error loading content: ...` — a total `String` containing the error
indicator `Error`, never a propagated failure. -/
theorem c8_error_placeholder (tool : String → Except String String)
    (commitHash filePath e : String)
    (h : tool (gitShowCmd commitHash filePath) = Except.error e) :
    provideTextDocumentContent tool commitHash filePath = "Error loading content: " ++ e ∧
    jsIncludes (provideTextDocumentContent tool commitHash filePath) "Error" = true := by
  have hp : provideTextDocumentContent tool commitHash filePath =
      "Error loading content: " ++ e := by
    unfold provideTextDocumentContent
    rw [h]
    rfl
  refine ⟨hp, ?_⟩
  rw [hp]
  unfold jsIncludes
  rw [String.data_append]
  rfl

theorem c8_error_placeholder_witness :
    (failingTool (gitShowCmd "deadbeef" "lib/util.ts") = Except.error "fatal: bad object") ∧
    (provideTextDocumentContent failingTool "deadbeef" "lib/util.ts" =
      "Error loading content: " ++ "fatal: bad object" ∧
    jsIncludes (provideTextDocumentContent failingTool "deadbeef" "lib/util.ts") "Error" =
      true) :=
  ⟨rfl, c8_error_placeholder failingTool "deadbeef" "lib/util.ts" "fatal: bad object" rfl⟩

/-- C9: whenever the `compareWithRevision` handler registers the content
provider, its trace schedules the provider's disposal after a bounded
10000 ms delay immediately following the diff-view open attempt, whether the
open succeeds or fails. -/
theorem c9_dispose_scheduled_after_diff (fp ws logOutput : String) (hash : List Char) (d : Bool)
    (h : parsedCommitLines logOutput.data ≠ []) :
    ∃ pre post,
      compareWithRevisionTrace (some fp) (some ws) logOutput (some hash) d =
        pre ++ CWREv.openDiff :: CWREv.scheduleDispose 10000 :: post := by
  have he : ¬(parsedCommitLines logOutput.data).length = 0 := by
    simpa [List.length_eq_zero] using h
  refine ⟨[CWREv.execBranchList, CWREv.showPrompt, CWREv.registerProvider],
          if d then [] else [CWREv.showError "Error"], ?_⟩
  simp [compareWithRevisionTrace, he]

theorem c9_dispose_scheduled_after_diff_witness :
    (parsedCommitLines "main".data ≠ []) ∧
    (∃ pre post,
      compareWithRevisionTrace (some "f.ts") (some "/w") "main" (some "abc".data) true =
        pre ++ CWREv.openDiff :: CWREv.scheduleDispose 10000 :: post) ∧
    (∃ pre post,
      compareWithRevisionTrace (some "f.ts") (some "/w") "main" (some "abc".data) false =
        pre ++ CWREv.openDiff :: CWREv.scheduleDispose 10000 :: post) :=
  ⟨by decide,
    c9_dispose_scheduled_after_diff "f.ts" "/w" "main" "abc".data true (by decide),
    c9_dispose_scheduled_after_diff "f.ts" "/w" "main" "abc".data false (by decide)⟩

/-- C10: in the `compareWithHash` handler the clipboard text is trimmed; when
the trimmed text is empty the handler reports the single error notification
`Clipboard is empty` and stops with no git invocation and no provider
registration, and otherwise the trimmed text is used verbatim as the
revision of the content locator. -/
theorem c10_clipboard_trim (fp ws relPath clipboard : String) (d : Bool) :
    ((jsTrim clipboard).data = [] →
      compareWithHashRun (some fp) (some ws) relPath clipboard d =
        ([CWHEv.readClipboard, CWHEv.showError "Clipboard is empty"], none)) ∧
    ((jsTrim clipboard).data ≠ [] →
      (compareWithHashRun (some fp) (some ws) relPath clipboard d).2 =
        some ⟨relPath, jsTrim clipboard⟩) := by
  constructor
  · intro h
    simp [compareWithHashRun, h]
  · intro h
    have he : ((jsTrim clipboard).data.isEmpty) = false := by
      cases hd : (jsTrim clipboard).data with
      | nil => exact absurd hd h
      | cons a as => rfl
    simp [compareWithHashRun, he]

theorem c10_clipboard_trim_witness :
    ((jsTrim "  \n ").data = [] ∧
      compareWithHashRun (some "f.ts") (some "/w") "f.ts" "  \n " true =
        ([CWHEv.readClipboard, CWHEv.showError "Clipboard is empty"], none)) ∧
    ((jsTrim " deadbeef ").data ≠ [] ∧
      (compareWithHashRun (some "f.ts") (some "/w") "f.ts" " deadbeef " true).2 =
        some ⟨"f.ts", jsTrim " deadbeef "⟩) :=
  ⟨⟨by decide, (c10_clipboard_trim "f.ts" "/w" "f.ts" "  \n " true).1 (by decide)⟩,
   ⟨by decide, (c10_clipboard_trim "f.ts" "/w" "f.ts" " deadbeef " true).2 (by decide)⟩⟩

end LightGit
